import Mathlib

/-!
# Verification of the parsy parser-combinator engine

Shallow embedding of `src/parsy/__init__.py`. The input stream is modelled
as `List Char`, a stream index as `Nat`. A Python parser result is the
triple `(status, next_index, value)`; following the spec's own design note
(§9) we represent it as a tagged union `ParseResult` with a `Value` payload
on success and a `String` expectation on failure (the two slots of the
Python triple never cross between the shapes in the source).

Python values flowing through parsers are dynamically typed; `Value` is a
small universal datatype covering every payload the embedded code produces
(matched strings, single items, indices, position pairs, collected lists,
`None`).
-/

namespace Parsy

/-- Dynamic value universe for parser payloads. -/
inductive Value where
  | vstr (s : List Char)
  | vchar (c : Char)
  | vnat (n : Nat)
  | vpair (a b : Value)
  | vlist (l : List Value)
  | vnone
  deriving Repr

/-- The result protocol: `(status, next_index, value)` of the Python source,
as a tagged union. -/
inductive ParseResult where
  | success (next_index : Nat) (value : Value)
  | failure (index : Nat) (expected : String)
  deriving Repr

/-- A parser is a function from `(stream, index)` to a `ParseResult`
(`Parser.wrapped_fn` in the source). -/
def Parser : Type := List Char → Nat → ParseResult

/-- `str.rfind(c)` on a list of characters: the offset of the last
occurrence of `c`, `none` when absent (Python returns `-1`). -/
def rfind (c : Char) : List Char → Option Nat
  | [] => none
  | x :: xs =>
    match rfind c xs with
    | some j => some (j + 1)
    | none => if x = c then some 0 else none

/-- `line_info_at(stream, index)` from the source: raises on
`index > len(stream)` (modelled as `none`); otherwise
`line` counts newlines in `stream[0:index]` and
`col = index - 1 - last_nl` when the prefix holds a newline, else `index`. -/
def line_info_at (stream : List Char) (index : Nat) : Option (Nat × Nat) :=
  if stream.length < index then none
  else
    let pre := stream.take index
    let line := pre.count '\n'
    match rfind '\n' pre with
    | some last_nl => some (line, index - 1 - last_nl)
    | none => some (line, index)

/-- `ParseError(expected, stream, index)`. -/
structure ParseError where
  expected : String
  stream : List Char
  index : Nat

/-- `ParseError.__str__`: `'parse error: expected {!s} at {!r}:{!r}'`
formatted with the expectation and the `line_info` pair (`none` models the
exception `line_info_at` raises past the end of input). -/
def ParseError.str (e : ParseError) : Option String :=
  match line_info_at e.stream e.index with
  | some (line, col) =>
      some ("parse error: expected " ++ e.expected ++ " at "
        ++ toString line ++ ":" ++ toString col)
  | none => none

/-- `success(val)`: always succeeds at the current index with `val`. -/
def success (val : Value) : Parser := fun _ index => .success index val

/-- `fail(message)`: always fails at the current index with `message`. -/
def fail (message : String) : Parser := fun _ index => .failure index message

/-- `string(s)`: succeeds iff `stream[index:index+len(s)] == s`
(Python slicing clamps at the end of the stream, hence `drop`/`take`);
consumes `len(s)` and yields `s`, else fails at `index` expecting `s`. -/
def string (s : List Char) : Parser := fun stream index =>
  if (stream.drop index).take s.length = s then
    .success (index + s.length) (.vstr s)
  else
    .failure index (String.mk s)

/-- `regex(exp)`: the compiled pattern is abstracted as a matcher `m`
standing for `exp.match(stream, index)`, returning `(match.end(), group(0))`
on a hit. On failure the expectation is the pattern source `pat`. -/
def regex (pat : String) (m : List Char → Nat → Option (Nat × List Char)) :
    Parser := fun stream index =>
  match m stream index with
  | some (e, t) => .success e (.vstr t)
  | none => .failure index pat

/-- `item_matcher(fn, message)`: one item at `index` when `fn` holds of it. -/
def item_matcher (fn : Char → Bool) (message : String) : Parser :=
  fun stream index =>
    if h : index < stream.length then
      if fn (stream.get ⟨index, h⟩) then
        .success (index + 1) (.vchar (stream.get ⟨index, h⟩))
      else .failure index message
    else .failure index message

/-- `eof`: succeeds (with `None`) iff the index is at or past the end. -/
def eof : Parser := fun stream index =>
  if index < stream.length then .failure index "EOF"
  else .success index .vnone

/-- The `index` primitive: always succeeds, yielding the current index. -/
def index_probe : Parser := fun _ index => .success index (.vnat index)

/-- The `line_info` primitive: always succeeds, yielding
`line_info_at(stream, index)`. The `vnone` branch corresponds to the
exception Python raises for `index > len(stream)` (unreachable from the
top-level entry points, which start at 0 and never move past the end). -/
def line_info : Parser := fun stream index =>
  .success index
    (match line_info_at stream index with
     | some (l, c) => .vpair (.vnat l) (.vnat c)
     | none => .vnone)

/-- `Parser.bind(bind_fn)`: on success continue with `bind_fn value` from the
new index; on failure return `(False, index, value)` — note the source
returns the bind's own starting `index`, not the inner failure's index. -/
def bind (p : Parser) (bind_fn : Value → Parser) : Parser :=
  fun stream index =>
    match p stream index with
    | .success new_index value => bind_fn value stream new_index
    | .failure _ value => .failure index value

/-- `Parser.__or__`: try `p`; on success return its result; on failure run
`other` from the original (closured) index and return its result verbatim. -/
def or_ (p other : Parser) : Parser := fun stream index =>
  match p stream index with
  | .success next_index value => .success next_index value
  | .failure _ _ => other stream index

/-- `Parser.desc(description)`: `self | fail(description)`. -/
def desc (p : Parser) (description : String) : Parser :=
  or_ p (fail description)

/-- The `while True` loop of `Parser.many`, with explicit fuel. Python's
loop diverges when `p` keeps succeeding without consuming; the fuel
(stream length + 1 − index at the call site) is exhausted only in exactly
those diverging runs, where this model truncates instead. -/
def manyLoop (p : Parser) (stream : List Char) :
    Nat → Nat → List Value → Nat × List Value
  | 0, index, aggregate => (index, aggregate)
  | fuel + 1, index, aggregate =>
    match p stream index with
    | .success next_index value =>
        manyLoop p stream fuel next_index (aggregate ++ [value])
    | .failure _ _ => (index, aggregate)

/-- `Parser.many()`: collect values until `p` fails; that failure is
discarded; always succeeds with the aggregate and the last success index. -/
def many (p : Parser) : Parser := fun stream index =>
  let r := manyLoop p stream (stream.length + 1 - index) index []
  .success r.1 (.vlist r.2)

/-- The first (required) loop of `Parser.times`: `min` mandatory matches.
On a failure the loop has already executed `index = next_index`, so the
inner failure's index and message are returned. -/
def timesRequired (p : Parser) (stream : List Char) :
    Nat → Nat → List Value → (Nat × String) ⊕ (Nat × List Value)
  | 0, index, aggregate => .inr (index, aggregate)
  | n + 1, index, aggregate =>
    match p stream index with
    | .success next_index value =>
        timesRequired p stream n next_index (aggregate ++ [value])
    | .failure j e => .inl (j, e)

/-- The second (optional) loop of `Parser.times`: up to `max - min` extra
matches, stopping silently at the first failure. -/
def timesOptional (p : Parser) (stream : List Char) :
    Nat → Nat → List Value → Nat × List Value
  | 0, index, aggregate => (index, aggregate)
  | n + 1, index, aggregate =>
    match p stream index with
    | .success next_index value =>
        timesOptional p stream n next_index (aggregate ++ [value])
    | .failure _ _ => (index, aggregate)

/-- `Parser.times(min, max)` (`range(min, max)` is empty when `max < min`,
matching truncated subtraction). -/
def times (p : Parser) (min max : Nat) : Parser := fun stream index =>
  match timesRequired p stream min index [] with
  | .inl (j, e) => .failure j e
  | .inr (i, aggregate) =>
    let r := timesOptional p stream (max - min) i aggregate
    .success r.1 (.vlist r.2)

/-- A coroutine body for `generate`: the generator either returns a final
value (`retV`), returns a parser whose result is used instead (`retP`), or
yields a sub-parser and resumes with its value (`yield`). This is the
spec's §9 reimplementation of the Python generator as an explicit
continuation tree. -/
inductive Gen where
  | retV (v : Value)
  | retP (p : Parser)
  | yield (p : Parser) (k : Value → Gen)

/-- The driving loop of `generate`'s `generated` parser: run each yielded
parser; on failure return `(False, index, value)` with the sub-parser's
failure index and message; on `StopIteration` either delegate to a returned
parser or succeed with the returned value. -/
def runGen (stream : List Char) : Gen → Nat → ParseResult
  | .retV v, index => .success index v
  | .retP p, index => p stream index
  | .yield p k, index =>
    match p stream index with
    | .success new_index value => runGen stream (k value) new_index
    | .failure j e => .failure j e

/-- `generate(fn)` for a generator function named `name` with body `g`:
the source returns `generated.desc(fn.__name__)`, i.e. the raw loop
wrapped as `generated | fail(name)`. -/
def generate (name : String) (g : Gen) : Parser :=
  desc (fun stream index => runGen stream g index) name

/-- Modelled from the spec (§4.6): the hand-chained `bind` expression of
the same grammar a `generate` coroutine expresses — each yield becomes a
`bind`, a returned value becomes `success`, a returned parser is run
directly. Used to compare `generate` against its claimed `bind` sugar. -/
def bindChain : Gen → Parser
  | .retV v => success v
  | .retP p => p
  | .yield p k => bind p (fun v => bindChain (k v))

mutual
/-- Syntax of parsers built from the library's primitives and combinators.
`pregex` carries the fact that Python's `re` matcher, anchored at `index`,
reports `match.end() ≥ index`. `pbind` covers `map`, `then`, `skip`,
`result`, `__add__` and `mark`, which the source defines as `bind`
instances; `pdesc` covers `desc`; `pgen` covers `generate` coroutines. -/
inductive PSyn where
  | psuccess (v : Value)
  | pfail (msg : String)
  | pstring (s : List Char)
  | pregex (pat : String) (m : List Char → Nat → Option (Nat × List Char))
      (hm : ∀ s i e t, m s i = some (e, t) → i ≤ e)
  | pitem (fn : Char → Bool) (msg : String)
  | peof
  | pindex
  | plineInfo
  | pbind (p : PSyn) (f : Value → PSyn)
  | pchoice (p q : PSyn)
  | pdesc (p : PSyn) (d : String)
  | pmany (p : PSyn)
  | ptimes (p : PSyn) (mn mx : Nat)
  | pgen (name : String) (g : GenS)

/-- Coroutine bodies whose yielded parsers are themselves built from the
library. -/
inductive GenS where
  | gretV (v : Value)
  | gretP (p : PSyn)
  | gyield (p : PSyn) (k : Value → GenS)
end

mutual
/-- Denotation of the parser syntax as the parsers of the source. -/
def denote : PSyn → Parser
  | .psuccess v => success v
  | .pfail msg => fail msg
  | .pstring s => string s
  | .pregex pat m _ => regex pat m
  | .pitem fn msg => item_matcher fn msg
  | .peof => eof
  | .pindex => index_probe
  | .plineInfo => line_info
  | .pbind p f => bind (denote p) (fun v => denote (f v))
  | .pchoice p q => or_ (denote p) (denote q)
  | .pdesc p d => desc (denote p) d
  | .pmany p => many (denote p)
  | .ptimes p mn mx => times (denote p) mn mx
  | .pgen name g => generate name (genDen g)

/-- Denotation of a syntactic coroutine body. -/
def genDen : GenS → Gen
  | .gretV v => .retV v
  | .gretP p => .retP (denote p)
  | .gyield p k => .yield (denote p) (fun v => genDen (k v))
end

/-! ## Helper lemmas -/

/-- `bindChain` and the raw `generate` loop agree exactly on successes. -/
theorem bindChain_success_iff (g : Gen) (stream : List Char) :
    ∀ index j v,
      bindChain g stream index = .success j v ↔
        runGen stream g index = .success j v := by
  induction g with
  | retV v => intro i j v; exact Iff.rfl
  | retP p => intro i j v; exact Iff.rfl
  | yield p k ih =>
    intro i j v
    rcases hp : p stream i with ⟨i', v'⟩ | ⟨j', e'⟩
    · simpa [bindChain, runGen, bind, hp] using ih v' i' j v
    · simp [bindChain, runGen, bind, hp]

/-- No occurrence: `rfind` returning `none` means no element of `l` is `c`. -/
theorem rfind_none_spec (c : Char) :
    ∀ l : List Char, rfind c l = none → ∀ k, k < l.length → l[k]? ≠ some c := by
  intro l
  induction l with
  | nil => intro _ k hk; simp at hk
  | cons x xs ih =>
    intro h k hk
    rcases hr : rfind c xs with _ | j
    · rw [rfind, hr] at h
      by_cases hx : x = c
      · simp [hx] at h
      · cases k with
        | zero => simpa using fun he => hx he
        | succ n => simpa using ih hr n (by simpa using hk)
    · rw [rfind, hr] at h
      simp at h

/-- Last occurrence: `rfind` returning `some j` means `l[j] = c` and no
later element of `l` is `c`. -/
theorem rfind_some_spec (c : Char) :
    ∀ (l : List Char) (j : Nat), rfind c l = some j →
      l[j]? = some c ∧ ∀ k, j < k → k < l.length → l[k]? ≠ some c := by
  intro l
  induction l with
  | nil => intro j h; simp [rfind] at h
  | cons x xs ih =>
    intro j h
    rcases hr : rfind c xs with _ | j'
    · rw [rfind, hr] at h
      by_cases hx : x = c
      · simp only [hx, if_pos rfl] at h
        obtain rfl : j = 0 := by injection h with h'; omega
        refine ⟨by simp [hx], fun k h0k hk => ?_⟩
        cases k with
        | zero => omega
        | succ n => simpa using rfind_none_spec c xs hr n (by simpa using hk)
      · simp [hx] at h
    · rw [rfind, hr] at h
      obtain rfl : j = j' + 1 := by injection h with h'; omega
      obtain ⟨h1, h2⟩ := ih j' hr
      refine ⟨by simpa using h1, fun k hjk hk => ?_⟩
      cases k with
      | zero => omega
      | succ n => simpa using h2 n (by omega) (by simpa using hk)

/-- The last newline strictly before `index`: offset `j` holds a newline
and no offset between `j` and `index` does. -/
def IsLastNlBefore (stream : List Char) (index j : Nat) : Prop :=
  j < index ∧ stream[j]? = some '\n'
  ∧ ∀ k, j < k → k < index → stream[k]? ≠ some '\n'

/-! ## Claims -/

/-- C1 (corrected): when `p` fails, `bind(p, f)` does propagate `p`'s
expectation unchanged, but it reports the failure at `bind`'s own starting
index — the source returns `(False, index, value)` with the closured
`index` — not at the index `p` itself reported. -/
theorem bind_failure_resets_index (p : Parser) (f : Value → Parser)
    (stream : List Char) (index j : Nat) (e : String)
    (h : p stream index = .failure j e) :
    bind p f stream index = .failure index e := by
  simp [bind, h]

theorem bind_failure_resets_index_witness :
    string ['a'] ("b".toList) 0 = .failure 0 "a"
    ∧ bind (string ['a']) success ("b".toList) 0 = .failure 0 "a" :=
  ⟨rfl, bind_failure_resets_index (string ['a']) success ("b".toList) 0 0 "a" rfl⟩

/-- C1 counterexample: `p = bind(string "ab", _ => string "cd")` on
`"abxx"` from index 0 fails at index 2 expecting `"cd"`, but
`bind(p, success)` reports the same expectation at index 0 — the failure's
index is not propagated unchanged. -/
theorem bind_failure_propagation_cex :
    bind (string ['a', 'b']) (fun _ => string ['c', 'd']) ("abxx".toList) 0
      = .failure 2 "cd"
    ∧ bind (bind (string ['a', 'b']) (fun _ => string ['c', 'd'])) success
        ("abxx".toList) 0 = .failure 0 "cd"
    ∧ ParseResult.failure 0 "cd" ≠ ParseResult.failure 2 "cd" :=
  ⟨rfl, rfl, by simp⟩

/-- C2 (corrected): when the sub-parser at the yield evaluation has
reached fails, no step after it runs and no partial results are exposed —
the loop's result does not depend on the continuation of the failing
yield; but because `generate` wraps the loop in `desc(fn.__name__)` —
i.e. `generated | fail(name)` — the overall parser reports the failure at
the original starting index with the generator function's name as the
expectation, not the failing sub-parser's `(index, expected)`. -/
theorem generate_failure_labeled (name : String) (stream : List Char)
    (index : Nat) :
    (∀ (p : Parser) (k k' : Value → Gen) (j : Nat) (e : String),
      p stream index = .failure j e →
        runGen stream (.yield p k) index = runGen stream (.yield p k') index)
    ∧ ∀ (g : Gen) (j : Nat) (e : String),
      runGen stream g index = .failure j e →
        generate name g stream index = .failure index name := by
  constructor
  · intro p k k' j e h
    simp [runGen, h]
  · intro g j e h
    simp [generate, desc, or_, fail, h]

theorem generate_failure_labeled_witness :
    runGen ("b".toList)
        (.yield (string ['a']) (fun _ => Gen.retV .vnone)) 0
      = runGen ("b".toList) (.yield (string ['a']) (fun _ => Gen.retP eof)) 0
    ∧ generate "g" (.yield (string ['a']) (fun _ => Gen.retV .vnone))
        ("b".toList) 0 = .failure 0 "g" :=
  ⟨(generate_failure_labeled "g" ("b".toList) 0).1 (string ['a'])
      (fun _ => Gen.retV .vnone) (fun _ => Gen.retP eof) 0 "a" rfl,
   (generate_failure_labeled "g" ("b".toList) 0).2
      (.yield (string ['a']) (fun _ => Gen.retV .vnone)) 0 "a" rfl⟩

/-- C2 counterexample: in the coroutine `yield string "ab"; yield
string "cd"`, the first failing sub-parser on `"abxx"` is `string "cd"`,
failing at index 2 expecting `"cd"`; the generated parser named `"g2"`
instead fails at index 0 expecting `"g2"`. -/
theorem generate_failure_cex :
    string ['c', 'd'] ("abxx".toList) 2 = .failure 2 "cd"
    ∧ generate "g2"
        (.yield (string ['a', 'b'])
          (fun _ => .yield (string ['c', 'd']) (fun w => Gen.retV w)))
        ("abxx".toList) 0 = .failure 0 "g2"
    ∧ ParseResult.failure 0 "g2" ≠ ParseResult.failure 2 "cd" :=
  ⟨rfl, rfl, by simp⟩

/-- C3 (confirmed): `choice(p, q)` returns `p`'s success untouched and
independently of `q` (so `q` is never consulted), and on any failure of
`p` — whatever index `p` failed at — it returns verbatim the result of
running `q` from the original starting index. -/
theorem or_left_bias_backtrack (p q q' : Parser) (stream : List Char)
    (index : Nat) :
    (∀ j v, p stream index = .success j v →
      or_ p q stream index = .success j v
      ∧ or_ p q stream index = or_ p q' stream index)
    ∧ ∀ j e, p stream index = .failure j e →
      or_ p q stream index = q stream index := by
  refine ⟨fun j v h => ⟨?_, ?_⟩, fun j e h => ?_⟩ <;> simp [or_, h]

theorem or_left_bias_backtrack_witness :
    or_ (string ['a']) (string ['b']) ("a".toList) 0
      = .success 1 (.vstr ['a'])
    ∧ or_ (string ['a']) (string ['b']) ("a".toList) 0
      = or_ (string ['a']) eof ("a".toList) 0
    ∧ or_ (fun _ i => .failure (i + 7) "boom") (string ['b']) ("b".toList) 0
      = string ['b'] ("b".toList) 0 :=
  ⟨((or_left_bias_backtrack (string ['a']) (string ['b']) eof
      ("a".toList) 0).1 1 (.vstr ['a']) rfl).1,
   ((or_left_bias_backtrack (string ['a']) (string ['b']) eof
      ("a".toList) 0).1 1 (.vstr ['a']) rfl).2,
   (or_left_bias_backtrack (fun _ i => .failure (i + 7) "boom")
      (string ['b']) eof ("b".toList) 0).2 7 "boom" rfl⟩

/-- C4 (corrected): the hand-chained `bind` expression of the same grammar
agrees with the `generate`-built parser whenever it succeeds (identical
`Success`), and the two always agree on status; but on failure the
`generate`-built parser reports the original starting index with the
generator's name as expectation (the automatic `desc(fn.__name__)` label),
which need not equal the bind chain's failure index and expectation. -/
theorem generate_refines_bindChain (name : String) (g : Gen)
    (stream : List Char) (index : Nat) :
    (∀ j v, bindChain g stream index = .success j v →
      generate name g stream index = .success j v)
    ∧ ∀ j e, bindChain g stream index = .failure j e →
      generate name g stream index = .failure index name := by
  constructor
  · intro j v h
    have hr := (bindChain_success_iff g stream index j v).1 h
    simp [generate, desc, or_, hr]
  · intro j e h
    rcases hr : runGen stream g index with ⟨j', v'⟩ | ⟨j', e'⟩
    · rw [← bindChain_success_iff g stream index j' v'] at hr
      rw [h] at hr
      exact absurd hr (by simp)
    · simp [generate, desc, or_, fail, hr]

theorem generate_refines_bindChain_witness :
    bindChain (.yield (string ['a']) (fun v => Gen.retV v)) ("a".toList) 0
      = .success 1 (.vstr ['a'])
    ∧ generate "w4" (.yield (string ['a']) (fun v => Gen.retV v))
        ("a".toList) 0 = .success 1 (.vstr ['a'])
    ∧ generate "w4" (.yield (string ['a']) (fun v => Gen.retV v))
        ("b".toList) 0 = .failure 0 "w4" :=
  ⟨rfl,
   (generate_refines_bindChain "w4"
      (.yield (string ['a']) (fun v => Gen.retV v)) ("a".toList) 0).1
      1 (.vstr ['a']) rfl,
   (generate_refines_bindChain "w4"
      (.yield (string ['a']) (fun v => Gen.retV v)) ("b".toList) 0).2
      0 "a" rfl⟩

/-- C4 counterexample: for the one-step grammar `yield string "a"`, on
input `"b"` the hand-chained bind expression fails expecting `"a"` while
the `generate`-built parser fails expecting its label `"g4"` — the two
ParseResults are not identical. -/
theorem generate_bindChain_cex :
    bindChain (.yield (string ['a']) (fun v => Gen.retV v)) ("b".toList) 0
      = .failure 0 "a"
    ∧ generate "g4" (.yield (string ['a']) (fun v => Gen.retV v))
        ("b".toList) 0 = .failure 0 "g4"
    ∧ ParseResult.failure 0 "g4" ≠ ParseResult.failure 0 "a" :=
  ⟨rfl, rfl, by simp⟩

/-- C6 (corrected): on input `"foo\nbar"` at index 5 (the `'a'` of
`"bar"`), the prefix `"foo\nb"` holds one newline at offset 3, so the code
computes line 1 and column `5 - 1 - 3 = 1`, not column 0. -/
theorem locate_foo_bar :
    line_info_at ("foo\nbar".toList) 5 = some (1, 1) := by decide

/-- C6 counterexample: `locate("foo\nbar", 5)` is not `(1, 0)`. -/
theorem locate_foo_bar_cex :
    line_info_at ("foo\nbar".toList) 5 ≠ some (1, 0) := by decide

/-- C10 (confirmed): `string("")` succeeds at every index up to and
including the end of input, consuming nothing and yielding the empty
string (the zero-width success behind the documented `many` divergence
warning). -/
theorem string_empty_zero_width (stream : List Char) (index : Nat)
    (h : index ≤ stream.length) :
    string [] stream index = .success index (.vstr []) := by
  simp [string]

theorem string_empty_zero_width_witness :
    string [] ("ab".toList) 2 = .success 2 (.vstr []) :=
  string_empty_zero_width ("ab".toList) 2 (by decide)

/-- C7 (confirmed): `times(p, 2, 4)` where `p` matches exactly three times
and then fails succeeds with the three collected values in order, ending
at the end of the third match; where `p` matches only once it fails,
propagating the index and expectation of the second (required) invocation. -/
theorem times_two_four_boundary (p : Parser) (stream : List Char) :
    (∀ i0 i1 i2 i3 v1 v2 v3 j e,
      p stream i0 = .success i1 v1 → p stream i1 = .success i2 v2 →
      p stream i2 = .success i3 v3 → p stream i3 = .failure j e →
      times p 2 4 stream i0 = .success i3 (.vlist [v1, v2, v3]))
    ∧ ∀ i0 i1 v1 j e,
      p stream i0 = .success i1 v1 → p stream i1 = .failure j e →
      times p 2 4 stream i0 = .failure j e := by
  constructor
  · intro i0 i1 i2 i3 v1 v2 v3 j e h1 h2 h3 h4
    show times p (Nat.succ (Nat.succ 0))
      (Nat.succ (Nat.succ (Nat.succ (Nat.succ 0)))) stream i0 = _
    simp [times, timesRequired, timesOptional, h1, h2, h3, h4]
  · intro i0 i1 v1 j e h1 h2
    show times p (Nat.succ (Nat.succ 0))
      (Nat.succ (Nat.succ (Nat.succ (Nat.succ 0)))) stream i0 = _
    simp [times, timesRequired, h1, h2]

theorem times_two_four_boundary_witness :
    times (string ['a']) 2 4 ("aaab".toList) 0
      = .success 3 (.vlist [.vstr ['a'], .vstr ['a'], .vstr ['a']])
    ∧ times (string ['a']) 2 4 ("ax".toList) 0 = .failure 1 "a" :=
  ⟨(times_two_four_boundary (string ['a']) ("aaab".toList)).1
      0 1 2 3 (.vstr ['a']) (.vstr ['a']) (.vstr ['a']) 3 "a"
      rfl rfl rfl rfl,
   (times_two_four_boundary (string ['a']) ("ax".toList)).2
      0 1 (.vstr ['a']) 1 "a" rfl rfl⟩

/-- C5 (confirmed): for `index ≤ length(stream)`, `locate` reports
`line` = the number of newlines in `stream[0:index]`, and `col` =
`index - 1 - j` where `j` is the offset of the last newline before
`index` when one exists, else `col = index`. -/
theorem line_info_at_locate (stream : List Char) (index : Nat)
    (h : index ≤ stream.length) :
    ∃ line col, line_info_at stream index = some (line, col)
      ∧ line = (stream.take index).count '\n'
      ∧ ((∃ j, j < index ∧ stream[j]? = some '\n') →
          ∃ j, IsLastNlBefore stream index j ∧ col = index - 1 - j)
      ∧ ((∀ j, j < index → stream[j]? ≠ some '\n') → col = index) := by
  have hlen : (stream.take index).length = index := by
    simp [List.length_take]; omega
  have hget : ∀ k, k < index → (stream.take index)[k]? = stream[k]? :=
    fun k hk => List.getElem?_take_of_lt hk
  have hnlt : ¬ stream.length < index := by omega
  rcases hr : rfind '\n' (stream.take index) with _ | j
  · refine ⟨(stream.take index).count '\n', index, ?_, rfl, ?_, fun _ => rfl⟩
    · simp [line_info_at, hnlt, hr]
    · rintro ⟨j, hj, hjn⟩
      exact absurd ((hget j hj).trans hjn)
        (rfind_none_spec '\n' (stream.take index) hr j (by omega))
  · obtain ⟨h1, h2⟩ := rfind_some_spec '\n' (stream.take index) j hr
    have hjlt : j < index := by
      have := (List.getElem?_eq_some.mp h1).1
      omega
    refine ⟨(stream.take index).count '\n', index - 1 - j, ?_, rfl,
      fun _ => ⟨j, ⟨hjlt, ?_, ?_⟩, rfl⟩, ?_⟩
    · simp [line_info_at, hnlt, hr]
    · rw [← hget j hjlt]; exact h1
    · intro k hjk hkidx hkn
      exact h2 k hjk (by omega) ((hget k hkidx).trans hkn)
    · intro hall
      exact absurd ((hget j hjlt).symm.trans h1) (hall j hjlt)

theorem line_info_at_locate_witness :
    ∃ line col, line_info_at ("foo\nbar".toList) 5 = some (line, col)
      ∧ line = (("foo\nbar".toList).take 5).count '\n'
      ∧ ((∃ j, j < 5 ∧ ("foo\nbar".toList)[j]? = some '\n') →
          ∃ j, IsLastNlBefore ("foo\nbar".toList) 5 j ∧ col = 5 - 1 - j)
      ∧ ((∀ j, j < 5 → ("foo\nbar".toList)[j]? ≠ some '\n') → col = 5) :=
  line_info_at_locate ("foo\nbar".toList) 5 (by decide)

/-- C8 (corrected): the rendering of a top-level `ParseError` is
`"parse error: expected {expected} at {line}:{col}"` with the pair computed
by the §4.1 locate algorithm — the source's format string
`'parse error: expected {!s} at {!r}:{!r}'` prints no literal `line`/`col`
words. Stated under locate's own precondition `index ≤ length(input)`. -/
theorem parse_error_format (expected : String) (stream : List Char)
    (index : Nat) (h : index ≤ stream.length) :
    ∃ line col, line_info_at stream index = some (line, col)
      ∧ ParseError.str ⟨expected, stream, index⟩
        = some ("parse error: expected " ++ expected ++ " at "
            ++ toString line ++ ":" ++ toString col) := by
  have hnlt : ¬ stream.length < index := by omega
  rcases hr : rfind '\n' (stream.take index) with _ | j
  · exact ⟨(stream.take index).count '\n', index,
      by simp [line_info_at, hnlt, hr],
      by simp [ParseError.str, line_info_at, hnlt, hr]⟩
  · exact ⟨(stream.take index).count '\n', index - 1 - j,
      by simp [line_info_at, hnlt, hr],
      by simp [ParseError.str, line_info_at, hnlt, hr]⟩

theorem parse_error_format_witness :
    ∃ line col, line_info_at ("foo\nbar".toList) 5 = some (line, col)
      ∧ ParseError.str ⟨"EOF", "foo\nbar".toList, 5⟩
        = some ("parse error: expected " ++ "EOF" ++ " at "
            ++ toString line ++ ":" ++ toString col) :=
  parse_error_format "EOF" ("foo\nbar".toList) 5 (by decide)

/-- C8 counterexample: at line 1, column 1 the source renders
`"parse error: expected EOF at 1:1"`, not
`"parse error: expected EOF at line 1:col 1"`. -/
theorem parse_error_format_cex :
    ParseError.str ⟨"EOF", "foo\nbar".toList, 5⟩
      = some "parse error: expected EOF at 1:1"
    ∧ ParseError.str ⟨"EOF", "foo\nbar".toList, 5⟩
      ≠ some "parse error: expected EOF at line 1:col 1" :=
  ⟨rfl, by decide⟩

/-! ## The success-index invariant (C9) -/

/-- A parser never reports a successful `next_index` before its start. -/
def Mono (p : Parser) : Prop :=
  ∀ stream index j v, p stream index = .success j v → index ≤ j

/-- The same invariant for the raw `generate` loop on a coroutine body. -/
def GMono (g : Gen) : Prop :=
  ∀ stream index j v, runGen stream g index = .success j v → index ≤ j

theorem mono_success (v : Value) : Mono (success v) := by
  intro s i j w h
  injection h with h1 _
  omega

theorem mono_fail (msg : String) : Mono (fail msg) := by
  intro s i j w h
  exact ParseResult.noConfusion h

theorem mono_string (s : List Char) : Mono (string s) := by
  intro st i j w h
  unfold string at h
  split at h
  · injection h with h1 _
    omega
  · exact ParseResult.noConfusion h

theorem mono_regex (pat : String)
    (m : List Char → Nat → Option (Nat × List Char))
    (hm : ∀ s i e t, m s i = some (e, t) → i ≤ e) : Mono (regex pat m) := by
  intro st i j w h
  unfold regex at h
  rcases hmc : m st i with _ | ⟨e, t⟩ <;> rw [hmc] at h
  · exact ParseResult.noConfusion h
  · injection h with h1 _
    exact h1 ▸ hm st i e t hmc

theorem mono_item (fn : Char → Bool) (msg : String) :
    Mono (item_matcher fn msg) := by
  intro st i j w h
  unfold item_matcher at h
  split at h
  · split at h
    · injection h with h1 _
      omega
    · exact ParseResult.noConfusion h
  · exact ParseResult.noConfusion h

theorem mono_eof : Mono eof := by
  intro st i j w h
  unfold eof at h
  split at h
  · exact ParseResult.noConfusion h
  · injection h with h1 _
    omega

theorem mono_index_probe : Mono index_probe := by
  intro st i j w h
  injection h with h1 _
  omega

theorem mono_line_info : Mono line_info := by
  intro st i j w h
  injection h with h1 _
  omega

theorem mono_bind (p : Parser) (f : Value → Parser) (hp : Mono p)
    (hf : ∀ v, Mono (f v)) : Mono (bind p f) := by
  intro st i j w h
  unfold bind at h
  rcases hpc : p st i with ⟨i1, v1⟩ | ⟨j1, e1⟩ <;> rw [hpc] at h
  · exact le_trans (hp st i i1 v1 hpc) (hf v1 st i1 j w h)
  · exact ParseResult.noConfusion h

theorem mono_or (p q : Parser) (hp : Mono p) (hq : Mono q) :
    Mono (or_ p q) := by
  intro st i j w h
  unfold or_ at h
  rcases hpc : p st i with ⟨i1, v1⟩ | ⟨j1, e1⟩ <;> rw [hpc] at h
  · injection h with h1 h2
    exact h1 ▸ hp st i i1 v1 hpc
  · exact hq st i j w h

theorem mono_desc (p : Parser) (d : String) (hp : Mono p) :
    Mono (desc p d) :=
  mono_or p (fail d) hp (mono_fail d)

theorem manyLoop_mono (p : Parser) (stream : List Char) (hp : Mono p) :
    ∀ fuel index acc, index ≤ (manyLoop p stream fuel index acc).1 := by
  intro fuel
  induction fuel with
  | zero => intro i acc; exact le_refl i
  | succ n ih =>
    intro i acc
    unfold manyLoop
    rcases hpc : p stream i with ⟨i1, v1⟩ | ⟨j1, e1⟩
    · simpa using le_trans (hp stream i i1 v1 hpc) (ih i1 (acc ++ [v1]))
    · simp

theorem mono_many (p : Parser) (hp : Mono p) : Mono (many p) := by
  intro st i j w h
  unfold many at h
  simp only at h
  injection h with h1 _
  exact h1 ▸ manyLoop_mono p st hp (st.length + 1 - i) i []

theorem timesRequired_mono (p : Parser) (stream : List Char) (hp : Mono p) :
    ∀ n index acc i1 acc1,
      timesRequired p stream n index acc = .inr (i1, acc1) → index ≤ i1 := by
  intro n
  induction n with
  | zero =>
    intro i acc i1 acc1 h
    unfold timesRequired at h
    injection h with h1
    injection h1 with h2 _
    omega
  | succ n ih =>
    intro i acc i1 acc1 h
    unfold timesRequired at h
    rcases hpc : p stream i with ⟨i2, v2⟩ | ⟨j2, e2⟩ <;> rw [hpc] at h
    · exact le_trans (hp stream i i2 v2 hpc) (ih i2 (acc ++ [v2]) i1 acc1 h)
    · exact Sum.noConfusion h

theorem timesOptional_mono (p : Parser) (stream : List Char) (hp : Mono p) :
    ∀ n index acc, index ≤ (timesOptional p stream n index acc).1 := by
  intro n
  induction n with
  | zero => intro i acc; exact le_refl i
  | succ n ih =>
    intro i acc
    unfold timesOptional
    rcases hpc : p stream i with ⟨i1, v1⟩ | ⟨j1, e1⟩
    · simpa using le_trans (hp stream i i1 v1 hpc) (ih i1 (acc ++ [v1]))
    · simp

theorem mono_times (p : Parser) (mn mx : Nat) (hp : Mono p) :
    Mono (times p mn mx) := by
  intro st i j w h
  unfold times at h
  rcases hreq : timesRequired p st mn i [] with ⟨j1, e1⟩ | ⟨i1, acc1⟩ <;>
    rw [hreq] at h
  · exact ParseResult.noConfusion h
  · simp only at h
    injection h with h1 _
    have ha : i ≤ i1 := timesRequired_mono p st hp mn i [] i1 acc1 hreq
    have hb : i1 ≤ (timesOptional p st (mx - mn) i1 acc1).1 :=
      timesOptional_mono p st hp (mx - mn) i1 acc1
    omega

theorem gmono_retV (v : Value) : GMono (.retV v) := by
  intro s i j w h
  injection h with h1 _
  omega

theorem gmono_retP (p : Parser) (hp : Mono p) : GMono (.retP p) :=
  fun s i j v h => hp s i j v h

theorem gmono_yield (p : Parser) (k : Value → Gen) (hp : Mono p)
    (hk : ∀ v, GMono (k v)) : GMono (.yield p k) := by
  intro s i j w h
  unfold runGen at h
  rcases hpc : p s i with ⟨i1, v1⟩ | ⟨j1, e1⟩ <;> rw [hpc] at h
  · exact le_trans (hp s i i1 v1 hpc) (hk v1 s i1 j w h)
  · exact ParseResult.noConfusion h

theorem mono_generate (name : String) (g : Gen) (hg : GMono g) :
    Mono (generate name g) :=
  mono_desc (fun stream index => runGen stream g index) name
    (fun s i j v h => hg s i j v h)

mutual
theorem denote_mono : ∀ s : PSyn, Mono (denote s)
  | .psuccess v => mono_success v
  | .pfail msg => mono_fail msg
  | .pstring s => mono_string s
  | .pregex pat m hm => mono_regex pat m hm
  | .pitem fn msg => mono_item fn msg
  | .peof => mono_eof
  | .pindex => mono_index_probe
  | .plineInfo => mono_line_info
  | .pbind p f => mono_bind _ _ (denote_mono p) (fun v => denote_mono (f v))
  | .pchoice p q => mono_or _ _ (denote_mono p) (denote_mono q)
  | .pdesc p d => mono_desc _ d (denote_mono p)
  | .pmany p => mono_many _ (denote_mono p)
  | .ptimes p mn mx => mono_times _ mn mx (denote_mono p)
  | .pgen name g => mono_generate name _ (genDen_mono g)

theorem genDen_mono : ∀ g : GenS, GMono (genDen g)
  | .gretV v => gmono_retV v
  | .gretP p => gmono_retP _ (denote_mono p)
  | .gyield p k => gmono_yield _ _ (denote_mono p) (fun v => genDen_mono (k v))
end

/-- C9 (confirmed): every parser built from the library's primitives and
combinators reports, on success, a `next_index` at or after its starting
index; and the always-succeed primitive `success(v)` reports exactly the
starting index. -/
theorem success_monotonicity :
    (∀ (s : PSyn) (stream : List Char) (index j : Nat) (v : Value),
      denote s stream index = .success j v → index ≤ j)
    ∧ ∀ (v : Value) (stream : List Char) (index : Nat),
      success v stream index = .success index v :=
  ⟨fun s stream index j v h => denote_mono s stream index j v h,
   fun _ _ _ => rfl⟩

theorem success_monotonicity_witness :
    (0 : Nat) ≤ 1
    ∧ success (.vnat 7) ("ab".toList) 2 = .success 2 (.vnat 7) :=
  ⟨success_monotonicity.1 (.pstring ['a']) ("ab".toList) 0 1 (.vstr ['a'])
     rfl,
   success_monotonicity.2 (.vnat 7) ("ab".toList) 2⟩

end Parsy
